import Mathlib

/-!
# tdoa_gpsdo: PPS jitter measurement and PPS-aligned IQ capture

Shallow embedding of the two programs of the repository:

* `tdoa_Collection.cpp` (namespace `tdoa_Collection`): the capture workflow: the two PPS
  edge waits, the stream start, the receive loop, the stream stop and the file dump;
* `check.cpp` (namespace `check`): the jitter workflow: reference-lock polling with
  fallback, the per-sample PPS edge wait, the deviation computation and the summary.

The radio driver is the environment.  Every blocking driver call is driven by a script:
the list of values the successive calls return.  A loop that needs one more value than
the script holds has not ended (`pending`, or `none`).

Conventions.
* `size_t` values are natural numbers.  The only arithmetic on them in the receive loop is
  `num_samples - write_index`, evaluated under the loop guard `write_index < num_samples`,
  and `write_index += to_copy` with `to_copy ≤ num_samples - write_index`; neither can
  wrap, so no reduction modulo `2 ^ 64` appears.
* `double` values are rationals: the properties stated about the jitter arithmetic are
  properties of the exact computation.
* A `std::complex<float>` is its pair of 32-bit patterns; `memcpy` moves them verbatim.
-/

namespace tdoa_Collection

/-- The enumeration `uhd::rx_metadata_t::error_code_t` of the driver. -/
inductive ErrorCode
  | ERROR_CODE_NONE
  | ERROR_CODE_TIMEOUT
  | ERROR_CODE_LATE_COMMAND
  | ERROR_CODE_BROKEN_CHAIN
  | ERROR_CODE_OVERFLOW
  | ERROR_CODE_ALIGNMENT
  | ERROR_CODE_BAD_PACKET
  deriving DecidableEq

/-- One `std::complex<float>` sample: the bit patterns of its real and imaginary part. -/
structure Complex32 where
  re : Nat
  im : Nat
  deriving DecidableEq

/-- What one returning call
`rx_stream->recv(&recv_buffer.front(), buffer_size, md, 1.0)` leaves behind: the returned
count, `md.error_code`, and the contents of `recv_buffer` after the call. -/
structure Response where
  num_rx : Nat
  error_code : ErrorCode
  recv_buffer : List Complex32
  deriving DecidableEq

/-- Observable actions of the capture workflow, in program order. -/
inductive Event
  | stream_cmd_start
  | recv_call
  | overflow_warning
  | recv_error
  | stream_cmd_stop
  | file_write (bytes : Nat)
  | exception_caught
  deriving DecidableEq

/-- The variables the receive loop reads and writes, with the action log so far. -/
structure LoopState where
  write_index : Nat
  received_samples : List Complex32
  recv_buffer : List Complex32
  log : List Event
  deriving DecidableEq

/-- How control leaves one execution of the loop body. -/
inductive Ctl
  | next
  | brk
  deriving DecidableEq

/-- How the receive loop stands after a script: `pending` when the guard still holds and
the script is used up, `completed` when the guard `write_index < num_samples` failed,
`broke` when the body executed `break`. -/
inductive LoopExit
  | pending
  | completed
  | broke
  deriving DecidableEq

/-- The C library `memcpy(&dst[pos], &src[0], n * sizeof(std::complex<float>))` on
vectors: slots `pos .. pos + n - 1` of `dst` receive the first `n` elements of `src`. -/
def memcpy (dst : List Complex32) (pos : Nat) (src : List Complex32) (n : Nat) :
    List Complex32 :=
  dst.take pos ++ src.take n ++ dst.drop (pos + n)

/-- The state at `size_t write_index = 0;`: `received_samples(num_samples)` and
`recv_buffer(buffer_size)` are value-initialised vectors, and the log holds what was
done before the loop. -/
def loop_init (num_samples buffer_size : Nat) (log : List Event) : LoopState :=
  { write_index := 0
    received_samples := List.replicate num_samples ⟨0, 0⟩
    recv_buffer := List.replicate buffer_size ⟨0, 0⟩
    log := log }

/-- One execution of the body of `while (write_index < num_samples)` (lines 84-96), on
the response `r` of its `recv` call. -/
def loop_body (num_samples : Nat) (s : LoopState) (r : Response) : Ctl × LoopState :=
  let s1 : LoopState :=
    { s with recv_buffer := r.recv_buffer, log := s.log ++ [Event.recv_call] }
  if r.error_code = ErrorCode.ERROR_CODE_OVERFLOW then
    (Ctl.next, { s1 with log := s1.log ++ [Event.overflow_warning] })
  else if r.error_code ≠ ErrorCode.ERROR_CODE_NONE then
    (Ctl.brk, { s1 with log := s1.log ++ [Event.recv_error] })
  else
    let to_copy := min r.num_rx (num_samples - s1.write_index)
    (Ctl.next,
      { s1 with
        received_samples := memcpy s1.received_samples s1.write_index s1.recv_buffer to_copy
        write_index := s1.write_index + to_copy })

/-- The receive loop `while (write_index < num_samples) { ... }` run on the responses of
its successive `recv` calls. -/
def receive_loop (num_samples : Nat) : LoopState → List Response → LoopExit × LoopState
  | s, [] => (if s.write_index < num_samples then LoopExit.pending else LoopExit.completed, s)
  | s, r :: rest =>
    if s.write_index < num_samples then
      match loop_body num_samples s r with
      | (Ctl.next, s') => receive_loop num_samples s' rest
      | (Ctl.brk, s') => (LoopExit.broke, s')
    else (LoopExit.completed, s)

/-- The actions one execution of the loop body appends to the log. -/
def events_of (r : Response) : List Event :=
  if r.error_code = ErrorCode.ERROR_CODE_OVERFLOW then [Event.recv_call, Event.overflow_warning]
  else if r.error_code ≠ ErrorCode.ERROR_CODE_NONE then [Event.recv_call, Event.recv_error]
  else [Event.recv_call]

/-- Number of `recv` calls made so far. -/
def consumed (s : LoopState) : Nat := s.log.count Event.recv_call

/-- Number of overflow warnings printed so far. -/
def overflow_retries (s : LoopState) : Nat := s.log.count Event.overflow_warning

/-- The samples a response delivers: the first `num_rx` slots of the chunk. -/
def delivered (r : Response) : List Complex32 := r.recv_buffer.take r.num_rx

/-- A response with `md.error_code == ERROR_CODE_NONE`. -/
def is_success (r : Response) : Bool := decide (r.error_code = ErrorCode.ERROR_CODE_NONE)

/-- A response that is neither a success nor an overflow: the body executes `break`. -/
def is_hard_error (r : Response) : Bool :=
  decide (r.error_code ≠ ErrorCode.ERROR_CODE_NONE ∧ r.error_code ≠ ErrorCode.ERROR_CODE_OVERFLOW)

/-- The receive loop as the program runs it: entered right after the stream start with
`write_index = 0`. -/
def run_loop (num_samples buffer_size : Nat) (responses : List Response) :
    LoopExit × LoopState :=
  receive_loop num_samples (loop_init num_samples buffer_size [Event.stream_cmd_start]) responses

/-- The received counts of the successful responses among `rs`, summed. -/
def success_count (rs : List Response) : Nat :=
  ((rs.filter is_success).map Response.num_rx).sum

/-- The delivered samples of the successful responses among `rs`, in arrival order. -/
def success_samples (rs : List Response) : List Complex32 :=
  (rs.filter is_success).flatMap delivered

/-- Outcome of the part of `main` from the stream start to `return`. -/
structure Run where
  exit_code : Nat
  write_index : Nat
  received_samples : List Complex32
  log : List Event
  deriving DecidableEq

/-- Lines 72-120 of `main`, from `issue_stream_cmd(stream_cmd)` on.  `responses` are
the results of the `recv` calls that return; `next_recv_throws` says that the call after
them raises a `std::exception`, which unwinds to the `catch` handler (lines 115-118).
The other driver calls return normally.  `none`: the loop has not ended and no further
response is scripted. -/
def main_from_stream_start (num_samples buffer_size : Nat) (responses : List Response)
    (next_recv_throws : Bool) : Option Run :=
  match run_loop num_samples buffer_size responses with
  | (LoopExit.pending, s) =>
    if next_recv_throws then
      some { exit_code := 1
             write_index := s.write_index
             received_samples := s.received_samples
             log := s.log ++ [Event.recv_call, Event.exception_caught] }
    else none
  | (_, s) =>
    some { exit_code := 0
           write_index := s.write_index
           received_samples := s.received_samples
           log := s.log ++ [Event.stream_cmd_stop, Event.file_write (s.received_samples.length * 8)] }

/-- Bytes handed to `outfile.write` in a run (0 when the file is never opened). -/
def bytes_written (r : Run) : Nat :=
  (r.log.map (fun e => match e with
    | Event.file_write b => b
    | _ => 0)).sum

/-- The PPS edge wait of the capture workflow (lines 43-47 and 53-57):
`while (true) { new_pps = poll; if (new_pps > last_pps) break; sleep }`, run on the values
of its successive polls; `last_pps` is read once, before the loop, and not updated in it.
Returns the polled value on which the wait ended and the polls left; `none` while the
wait has not ended. -/
def wait_pps_edge (last_pps : ℚ) : List ℚ → Option (ℚ × List ℚ)
  | [] => none
  | new_pps :: rest =>
    if new_pps > last_pps then some (new_pps, rest)
    else wait_pps_edge last_pps rest

end tdoa_Collection

namespace check

/-- The clock configuration of the device together with the program variable
`ref_locked` and the number of `get_mboard_sensor("ref_locked")` reads made. -/
structure ClockConfiguration where
  clock_source : String
  time_source : String
  ref_locked : Bool
  sensor_reads : Nat
  deriving DecidableEq

/-- The loop `for (int i = 0; i < 10; ++i) { ref_locked = sensor; if (ref_locked) break;
sleep }` (lines 38-42).  `readings k` is the result of the sensor read number `k`; the
first argument is `10 - i`.  Returns `ref_locked` and the number of reads made. -/
def lock_poll (readings : Nat → Bool) : Nat → Nat → Bool → Bool × Nat
  | 0, i, ref_locked => (ref_locked, i)
  | remaining + 1, i, _ =>
    let ref_locked := readings i
    if ref_locked then (ref_locked, i + 1)
    else lock_poll readings remaining (i + 1) ref_locked

/-- Lines 32-48 of `main`: select the external clock and time source, poll the lock
sensor, and fall back to the internal sources when `ref_locked` is false. -/
def clock_negotiation (readings : Nat → Bool) : ClockConfiguration :=
  let polled := lock_poll readings 10 0 false
  let cfg : ClockConfiguration :=
    { clock_source := "external", time_source := "external"
      ref_locked := polled.1, sensor_reads := polled.2 }
  if !cfg.ref_locked then
    { cfg with clock_source := "internal", time_source := "internal" }
  else cfg

/-- The PPS edge wait of the jitter sampler (lines 73-77):
`while (true) { curr = poll; if (curr != prev) break; sleep }`, run on the values of its
successive polls.  Returns `curr` and the polls left; `none` while the wait has not
ended. -/
def wait_edge (prev : ℚ) : List ℚ → Option (ℚ × List ℚ)
  | [] => none
  | curr :: rest =>
    if curr ≠ prev then some (curr, rest)
    else wait_edge prev rest

/-- The collection loop `for (size_t i = 0; i < N; ++i)` (lines 71-90); the first
argument is `N - i`.  `none`: the polls ran out inside an edge wait. -/
def jitter_loop : Nat → Nat → ℚ → List ℚ → List ℚ → Option (List ℚ)
  | 0, _, _, deviations, _ => some deviations
  | remaining + 1, i, prev, deviations, polls =>
    match wait_edge prev polls with
    | none => none
    | some (curr, rest) =>
      jitter_loop remaining (i + 1) curr
        (deviations.set i ((curr - prev - 1) * 1000000000)) rest

/-- The call `std::accumulate(first, last, init)`: a left fold with `+`. -/
def accumulate (xs : List ℚ) (init : ℚ) : ℚ := xs.foldl (· + ·) init

/-- The call `std::minmax_element(first, last)`, dereferenced: the first smallest and
the last largest element; `none` on an empty range, where both iterators are `last`. -/
def minmax_element : List ℚ → Option (ℚ × ℚ)
  | [] => none
  | x :: xs =>
    some (xs.foldl
      (fun acc y => (if y < acc.1 then y else acc.1, if y < acc.2 then acc.2 else y)) (x, x))

/-- The four numbers of the `# Summary` block. -/
structure Summary where
  average : ℚ
  peak_to_peak : ℚ
  max_advance : ℚ
  max_delay : ℚ
  deriving DecidableEq

/-- Lines 93-100: `avg`, `*max - *min`, `*min`, `*max` of the vector `deviations` of
size `N`. -/
def summary (N : Nat) (deviations : List ℚ) : Option Summary :=
  let avg := accumulate deviations 0 / (N : ℚ)
  match minmax_element deviations with
  | none => none
  | some (min, max) =>
    some { average := avg, peak_to_peak := max - min, max_advance := min, max_delay := max }

/-- Lines 67-100 of `main` with sample count `N`: `first_read` is the read that
initialises `prev`, `polls` the values of the later `get_time_last_pps` reads.  Returns
the recorded deviations and the summary. -/
def jitter_sampler (N : Nat) (first_read : ℚ) (polls : List ℚ) : Option (List ℚ × Summary) :=
  match jitter_loop N 0 first_read (List.replicate N 0) polls with
  | none => none
  | some deviations => (summary N deviations).map (fun s => (deviations, s))

end check

/-! ## Theorems -/

namespace tdoa_Collection

theorem loop_body_overflow (n : Nat) (s : LoopState) (r : Response)
    (h : r.error_code = ErrorCode.ERROR_CODE_OVERFLOW) :
    loop_body n s r = (Ctl.next, { s with recv_buffer := r.recv_buffer, log := s.log ++ events_of r }) := by
  simp [loop_body, events_of, h]

theorem loop_body_hard (n : Nat) (s : LoopState) (r : Response)
    (h : is_hard_error r = true) :
    loop_body n s r = (Ctl.brk, { s with recv_buffer := r.recv_buffer, log := s.log ++ events_of r }) := by
  simp [is_hard_error] at h
  simp [loop_body, events_of, h]

theorem loop_body_success (n : Nat) (s : LoopState) (r : Response)
    (h : r.error_code = ErrorCode.ERROR_CODE_NONE) :
    loop_body n s r = (Ctl.next,
      { write_index := s.write_index + min r.num_rx (n - s.write_index)
        received_samples := memcpy s.received_samples s.write_index r.recv_buffer
          (min r.num_rx (n - s.write_index))
        recv_buffer := r.recv_buffer
        log := s.log ++ events_of r }) := by
  simp [loop_body, events_of, h]

theorem response_cases (r : Response) :
    r.error_code = ErrorCode.ERROR_CODE_OVERFLOW ∨ is_hard_error r = true ∨
      r.error_code = ErrorCode.ERROR_CODE_NONE := by
  cases h : r.error_code <;> simp [is_hard_error, h]


theorem receive_loop_done (n : Nat) (s : LoopState) (rs : List Response)
    (h : ¬ s.write_index < n) : receive_loop n s rs = (LoopExit.completed, s) := by
  cases rs <;> simp [receive_loop, h]

theorem receive_loop_next (n : Nat) (s s1 : LoopState) (r : Response) (rest : List Response)
    (h : s.write_index < n) (hb : loop_body n s r = (Ctl.next, s1)) :
    receive_loop n s (r :: rest) = receive_loop n s1 rest := by
  simp [receive_loop, h, hb]

theorem receive_loop_brk (n : Nat) (s s1 : LoopState) (r : Response) (rest : List Response)
    (h : s.write_index < n) (hb : loop_body n s r = (Ctl.brk, s1)) :
    receive_loop n s (r :: rest) = (LoopExit.broke, s1) := by
  simp [receive_loop, h, hb]

theorem success_count_cons (r : Response) (l : List Response) :
    success_count (r :: l) = (if is_success r = true then r.num_rx else 0) + success_count l := by
  by_cases h : is_success r = true <;> simp [success_count, List.filter_cons, h]

theorem success_samples_cons (r : Response) (l : List Response) :
    success_samples (r :: l) =
      (if is_success r = true then delivered r else []) ++ success_samples l := by
  by_cases h : is_success r = true <;> simp [success_samples, List.filter_cons, h]

theorem is_success_of_overflow (r : Response)
    (h : r.error_code = ErrorCode.ERROR_CODE_OVERFLOW) : is_success r = false := by
  simp [is_success, h]

theorem is_success_of_hard (r : Response) (h : is_hard_error r = true) :
    is_success r = false := by
  simp [is_hard_error] at h
  simp [is_success, h]

theorem is_hard_of_overflow (r : Response)
    (h : r.error_code = ErrorCode.ERROR_CODE_OVERFLOW) : is_hard_error r = false := by
  simp [is_hard_error, h]

theorem is_hard_of_none (r : Response)
    (h : r.error_code = ErrorCode.ERROR_CODE_NONE) : is_hard_error r = false := by
  simp [is_hard_error, h]

theorem memcpy_length (dst src : List Complex32) (pos n : Nat)
    (h1 : pos + n ≤ dst.length) (h2 : n ≤ src.length) :
    (memcpy dst pos src n).length = dst.length := by
  simp [memcpy]
  omega

theorem memcpy_take (dst src : List Complex32) (pos n : Nat)
    (h1 : pos + n ≤ dst.length) (h2 : n ≤ src.length) :
    (memcpy dst pos src n).take (pos + n) = dst.take pos ++ src.take n := by
  unfold memcpy
  apply List.take_left'
  simp
  omega


theorem receive_loop_spec (n : Nat) (rs : List Response) :
    ∀ s : LoopState, s.write_index ≤ n →
    ∃ k, k ≤ rs.length ∧
      (receive_loop n s rs).2.log = s.log ++ (rs.take k).flatMap events_of ∧
      (receive_loop n s rs).2.write_index = min n (s.write_index + success_count (rs.take k)) ∧
      s.write_index ≤ (receive_loop n s rs).2.write_index ∧
      ((receive_loop n s rs).1 = LoopExit.pending →
        k = rs.length ∧ (receive_loop n s rs).2.write_index < n) ∧
      ((receive_loop n s rs).1 = LoopExit.completed →
        (receive_loop n s rs).2.write_index = n) ∧
      ((receive_loop n s rs).1 = LoopExit.broke →
        (receive_loop n s rs).2.write_index < n ∧
        ∃ r, rs[k - 1]? = some r ∧ 0 < k ∧ is_hard_error r = true) ∧
      (∀ r ∈ rs.take k, is_hard_error r = true → (receive_loop n s rs).1 = LoopExit.broke) ∧
      ((∀ r ∈ rs, r.num_rx ≤ r.recv_buffer.length) → s.received_samples.length = n →
        (receive_loop n s rs).2.received_samples.length = n ∧
        (receive_loop n s rs).2.received_samples.take (receive_loop n s rs).2.write_index =
          s.received_samples.take s.write_index ++
            (success_samples (rs.take k)).take
              ((receive_loop n s rs).2.write_index - s.write_index)) := by
  induction rs with
  | nil =>
    intro s hs
    refine ⟨0, le_refl _, ?_⟩
    by_cases h : s.write_index < n
    · simp [receive_loop, h, success_count, success_samples]
      omega
    · simp [receive_loop, h, success_count, success_samples]
      omega
  | cons r rest ih =>
    intro s hs
    by_cases h : s.write_index < n
    · rcases response_cases r with ho | hh | hn
      · -- overflow: retry
        have hb := loop_body_overflow n s r ho
        rw [receive_loop_next n s _ r rest h hb]
        obtain ⟨k, hk, hlog, hwi, hmono, hpend, hcomp, hbrk, hhd, hbuf⟩ :=
          ih { s with recv_buffer := r.recv_buffer, log := s.log ++ events_of r } hs
        simp only at hlog hwi hmono hbuf hhd
        refine ⟨k + 1, by simpa using hk, ?_, ?_, hmono, ?_, hcomp, ?_, ?_, ?_⟩
        · simp [hlog, List.flatMap_cons]
        · simp [hwi, success_count_cons, is_success_of_overflow r ho]
        · intro hp
          have := hpend hp
          simpa using this
        · intro hbk
          obtain ⟨hlt, r', hr', hk0, hhard⟩ := hbrk hbk
          refine ⟨hlt, r', ?_, Nat.succ_pos _, hhard⟩
          obtain ⟨j, rfl⟩ : ∃ j, k = j + 1 := ⟨k - 1, by omega⟩
          simpa using hr'
        · intro x hx hxh
          rw [List.take_succ_cons, List.mem_cons] at hx
          rcases hx with rfl | hx
          · rw [is_hard_of_overflow x ho] at hxh
            cases hxh
          · exact hhd x hx hxh
        · intro hwf hlen
          have := hbuf (fun x hx => hwf x (List.mem_cons_of_mem _ hx)) hlen
          simpa [success_samples_cons, is_success_of_overflow r ho] using this
      · -- hard error: break
        have hb := loop_body_hard n s r hh
        rw [receive_loop_brk n s _ r rest h hb]
        refine ⟨1, by simp, ?_, ?_, le_refl _, ?_, ?_, ?_, ?_, ?_⟩
        · simp
        · simp [success_count_cons, is_success_of_hard r hh, success_count]
          omega
        · intro hp; cases hp
        · intro hp; cases hp
        · intro _
          exact ⟨h, r, by simp, Nat.one_pos, hh⟩
        · intro _ _ _
          rfl
        · intro _ hlen
          simp [success_samples_cons, is_success_of_hard r hh, success_samples, hlen]
      · -- success: copy and advance
        have hb := loop_body_success n s r hn
        rw [receive_loop_next n s _ r rest h hb]
        have hsucc : is_success r = true := by simp [is_success, hn]
        obtain ⟨k, hk, hlog, hwi, hmono, hpend, hcomp, hbrk, hhd, hbuf⟩ :=
          ih { write_index := s.write_index + min r.num_rx (n - s.write_index)
               received_samples := memcpy s.received_samples s.write_index r.recv_buffer
                 (min r.num_rx (n - s.write_index))
               recv_buffer := r.recv_buffer
               log := s.log ++ events_of r } (by simp; omega)
        simp only at hlog hwi hmono hbuf hhd
        refine ⟨k + 1, by simpa using hk, ?_, ?_, by omega, ?_, hcomp, ?_, ?_, ?_⟩
        · simp [hlog, List.flatMap_cons]
        · simp only [List.take_succ_cons, success_count_cons, hsucc, if_true, hwi]
          omega
        · intro hp
          have := hpend hp
          simpa using this
        · intro hbk
          obtain ⟨hlt, r', hr', hk0, hhard⟩ := hbrk hbk
          refine ⟨hlt, r', ?_, Nat.succ_pos _, hhard⟩
          obtain ⟨j, rfl⟩ : ∃ j, k = j + 1 := ⟨k - 1, by omega⟩
          simpa using hr'
        · intro x hx hxh
          rw [List.take_succ_cons, List.mem_cons] at hx
          rcases hx with rfl | hx
          · rw [is_hard_of_none x hn] at hxh
            cases hxh
          · exact hhd x hx hxh
        · intro hwf hlen
          have hr : r.num_rx ≤ r.recv_buffer.length := hwf r (List.mem_cons_self _ _)
          have hl1 : (memcpy s.received_samples s.write_index r.recv_buffer
              (min r.num_rx (n - s.write_index))).length = n := by
            rw [memcpy_length _ _ _ _ (by omega) (by omega), hlen]
          obtain ⟨hl2, htake⟩ :=
            hbuf (fun x hx => hwf x (List.mem_cons_of_mem _ hx)) hl1
          refine ⟨hl2, ?_⟩
          rw [htake, memcpy_take _ _ _ _ (by omega) (by omega)]
          simp only [List.take_succ_cons, success_samples_cons, hsucc, if_true, delivered,
            List.append_assoc, List.take_append_eq_append_take, List.take_take,
            List.length_take]
          congr 1
          by_cases hc : r.num_rx ≤ n - s.write_index
          · have e1 : min r.num_rx (n - s.write_index) = r.num_rx := by omega
            simp only [e1] at hwi hmono ⊢
            congr 2
            · omega
            · omega
          · have e1 : min r.num_rx (n - s.write_index) = n - s.write_index := by omega
            simp only [e1] at hwi hmono ⊢
            have e2 : (receive_loop n
              { write_index := s.write_index + (n - s.write_index)
                received_samples := memcpy s.received_samples s.write_index r.recv_buffer
                  (n - s.write_index)
                recv_buffer := r.recv_buffer
                log := s.log ++ events_of r } rest).2.write_index = n := by omega
            simp only [e2]
            have e3 : n - (s.write_index + (n - s.write_index)) = 0 := by omega
            have e4 : n - s.write_index - min r.num_rx r.recv_buffer.length = 0 := by omega
            have e5 : min (n - s.write_index) r.num_rx = n - s.write_index := by omega
            simp [e3, e4, e5]
    · rw [receive_loop_done n s _ h]
      refine ⟨0, Nat.zero_le _, ?_⟩
      simp [success_count, success_samples]
      omega


theorem receive_loop_append (n : Nat) (a b : List Response) :
    ∀ s : LoopState, receive_loop n s (a ++ b) =
      if (receive_loop n s a).1 = LoopExit.pending then receive_loop n (receive_loop n s a).2 b
      else receive_loop n s a := by
  induction a with
  | nil =>
    intro s
    by_cases h : s.write_index < n
    · simp [receive_loop, h]
    · simp [receive_loop, h, receive_loop_done n s b h]
  | cons r rest ih =>
    intro s
    by_cases h : s.write_index < n
    · rcases hb : loop_body n s r with ⟨c, s1⟩
      cases c
      · rw [List.cons_append, receive_loop_next n s s1 r _ h hb,
          receive_loop_next n s s1 r _ h hb]
        exact ih s1
      · rw [List.cons_append, receive_loop_brk n s s1 r _ h hb,
          receive_loop_brk n s s1 r _ h hb]
        simp
    · rw [receive_loop_done n s _ h, receive_loop_done n s _ h]
      simp

theorem count_recv_call_events (l : List Response) :
    (l.flatMap events_of).count Event.recv_call = l.length := by
  induction l with
  | nil => simp
  | cons r rest ih =>
    rw [List.flatMap_cons, List.count_append, ih]
    rcases response_cases r with ho | hh | hn
    · simp [events_of, ho]; omega
    · simp [is_hard_error] at hh
      simp [events_of, hh]; omega
    · simp [events_of, hn]; omega


theorem run_loop_spec (n b : Nat) (rs : List Response) :
    consumed (run_loop n b rs).2 ≤ rs.length ∧
    (run_loop n b rs).2.log =
      Event.stream_cmd_start :: (rs.take (consumed (run_loop n b rs).2)).flatMap events_of ∧
    (run_loop n b rs).2.write_index =
      min n (success_count (rs.take (consumed (run_loop n b rs).2))) ∧
    ((run_loop n b rs).1 = LoopExit.pending →
      consumed (run_loop n b rs).2 = rs.length ∧ (run_loop n b rs).2.write_index < n) ∧
    ((run_loop n b rs).1 = LoopExit.completed → (run_loop n b rs).2.write_index = n) ∧
    ((run_loop n b rs).1 = LoopExit.broke →
      (run_loop n b rs).2.write_index < n ∧
      ∃ r, rs[consumed (run_loop n b rs).2 - 1]? = some r ∧
        0 < consumed (run_loop n b rs).2 ∧ is_hard_error r = true) ∧
    (∀ r ∈ rs.take (consumed (run_loop n b rs).2), is_hard_error r = true →
      (run_loop n b rs).1 = LoopExit.broke) ∧
    ((∀ r ∈ rs, r.num_rx ≤ r.recv_buffer.length) →
      (run_loop n b rs).2.received_samples.length = n ∧
      (run_loop n b rs).2.received_samples.take (run_loop n b rs).2.write_index =
        (success_samples (rs.take (consumed (run_loop n b rs).2))).take
          (run_loop n b rs).2.write_index) := by
  obtain ⟨k, hk, hlog, hwi, -, hpend, hcomp, hbrk, hhd, hbuf⟩ :=
    receive_loop_spec n rs (loop_init n b [Event.stream_cmd_start]) (Nat.zero_le _)
  have hc : consumed (run_loop n b rs).2 = k := by
    unfold consumed run_loop
    rw [hlog, List.count_append, count_recv_call_events]
    simp [loop_init, List.length_take, hk]
  rw [hc]
  unfold run_loop
  refine ⟨hk, ?_, ?_, hpend, hcomp, hbrk, hhd, ?_⟩
  · simpa [loop_init] using hlog
  · simpa [loop_init] using hwi
  · intro hwf
    have := hbuf hwf (by simp [loop_init])
    simpa [loop_init] using this


theorem take_succ_of_get (rs : List Response) (k : Nat) (r : Response)
    (h : rs[k]? = some r) : rs.take (k + 1) = rs.take k ++ [r] := by
  rw [List.take_succ, h]
  rfl

theorem run_loop_step (n b : Nat) (rs : List Response) (k : Nat) (r : Response)
    (hr : rs[k]? = some r)
    (hp : (run_loop n b (rs.take k)).1 = LoopExit.pending) :
    run_loop n b (rs.take (k + 1)) =
      receive_loop n (run_loop n b (rs.take k)).2 [r] := by
  rw [take_succ_of_get rs k r hr]
  unfold run_loop at hp ⊢
  rw [receive_loop_append, if_pos hp]

theorem run_loop_later (n b : Nat) (rs : List Response) (j k : Nat) (hjk : j ≤ k) :
    run_loop n b (rs.take k) = run_loop n b (rs.take j) ∨
    run_loop n b (rs.take k) =
      receive_loop n (run_loop n b (rs.take j)).2 ((rs.take k).drop j) := by
  have e : rs.take k = rs.take j ++ (rs.take k).drop j := by
    conv_lhs => rw [← List.take_append_drop j (rs.take k)]
    rw [List.take_take, Nat.min_eq_left hjk]
  by_cases hp : (run_loop n b (rs.take j)).1 = LoopExit.pending
  · right
    unfold run_loop at hp ⊢
    conv_lhs => rw [e, receive_loop_append, if_pos hp]
  · left
    unfold run_loop at hp ⊢
    conv_lhs => rw [e, receive_loop_append, if_neg hp]

/-- C1: the write cursor of the receive loop starts at 0, never exceeds `num_samples`
before or after any iteration, and an iteration that runs on a response with error code
NONE advances it by exactly `min(num_rx, num_samples - write_index)`.  The state after
`k` iterations is the loop run on the first `k` responses; iteration `k + 1` runs when
that run is still pending. -/
theorem C1_write_cursor_invariant (num_samples buffer_size : Nat) (responses : List Response) :
    (loop_init num_samples buffer_size [Event.stream_cmd_start]).write_index = 0 ∧
    (∀ k, (run_loop num_samples buffer_size (responses.take k)).2.write_index ≤ num_samples) ∧
    (∀ k r, responses[k]? = some r →
      (run_loop num_samples buffer_size (responses.take k)).1 = LoopExit.pending →
      r.error_code = ErrorCode.ERROR_CODE_NONE →
      (run_loop num_samples buffer_size (responses.take (k + 1))).2.write_index =
        (run_loop num_samples buffer_size (responses.take k)).2.write_index +
          min r.num_rx
            (num_samples - (run_loop num_samples buffer_size (responses.take k)).2.write_index)) := by
  refine ⟨rfl, ?_, ?_⟩
  · intro k
    have h := (run_loop_spec num_samples buffer_size (responses.take k)).2.2.1
    rw [h]
    exact Nat.min_le_left _ _
  · intro k r hr hp hn
    have hlt := ((run_loop_spec num_samples buffer_size (responses.take k)).2.2.2.1 hp).2
    rw [run_loop_step num_samples buffer_size responses k r hr hp,
      receive_loop_next num_samples _ _ r [] hlt (loop_body_success num_samples _ r hn)]
    simp [receive_loop]

/-- C1 at a concrete script: capacity 4, two successful responses of 3 samples; the
second iteration advances the cursor from 3 by `min 3 (4 - 3)`. -/
theorem C1_write_cursor_invariant_witness :
    (run_loop 4 3 [⟨3, ErrorCode.ERROR_CODE_NONE, [⟨1, 1⟩, ⟨2, 2⟩, ⟨3, 3⟩]⟩]).1 = LoopExit.pending ∧
    (run_loop 4 3 [⟨3, ErrorCode.ERROR_CODE_NONE, [⟨1, 1⟩, ⟨2, 2⟩, ⟨3, 3⟩]⟩,
      ⟨3, ErrorCode.ERROR_CODE_NONE, [⟨4, 4⟩, ⟨5, 5⟩, ⟨6, 6⟩]⟩]).2.write_index = 3 + min 3 (4 - 3) :=
  ⟨by decide,
   (C1_write_cursor_invariant 4 3
      [⟨3, ErrorCode.ERROR_CODE_NONE, [⟨1, 1⟩, ⟨2, 2⟩, ⟨3, 3⟩]⟩,
       ⟨3, ErrorCode.ERROR_CODE_NONE, [⟨4, 4⟩, ⟨5, 5⟩, ⟨6, 6⟩]⟩]).2.2 1
      ⟨3, ErrorCode.ERROR_CODE_NONE, [⟨4, 4⟩, ⟨5, 5⟩, ⟨6, 6⟩]⟩ rfl (by decide) rfl⟩


theorem receive_loop_overflows (n : Nat) (os : List Response)
    (hos : ∀ r ∈ os, r.error_code = ErrorCode.ERROR_CODE_OVERFLOW) :
    ∀ s : LoopState, s.write_index < n →
      (receive_loop n s os).1 = LoopExit.pending ∧
      (receive_loop n s os).2.write_index = s.write_index ∧
      (receive_loop n s os).2.received_samples = s.received_samples ∧
      (receive_loop n s os).2.log = s.log ++ os.flatMap events_of := by
  induction os with
  | nil =>
    intro s hs
    simp [receive_loop, hs]
  | cons r rest ih =>
    intro s hs
    have ho := hos r (List.mem_cons_self _ _)
    rw [receive_loop_next n s _ r rest hs (loop_body_overflow n s r ho)]
    have := ih (fun x hx => hos x (List.mem_cons_of_mem _ hx))
      { s with recv_buffer := r.recv_buffer, log := s.log ++ events_of r } hs
    simpa [List.flatMap_cons] using this

theorem count_overflow_events (l : List Response) :
    (l.flatMap events_of).count Event.overflow_warning =
      l.countP (fun r => decide (r.error_code = ErrorCode.ERROR_CODE_OVERFLOW)) := by
  induction l with
  | nil => simp
  | cons r rest ih =>
    rw [List.flatMap_cons, List.count_append, ih, List.countP_cons]
    rcases response_cases r with ho | hh | hn
    · simp [events_of, ho]; omega
    · simp [is_hard_error] at hh
      simp [events_of, hh]
    · simp [events_of, hn]

theorem success_count_all (ss : List Response)
    (hss : ∀ r ∈ ss, r.error_code = ErrorCode.ERROR_CODE_NONE) :
    success_count ss = (ss.map Response.num_rx).sum := by
  unfold success_count
  rw [List.filter_eq_self.mpr]
  intro r hr
  simp [is_success, hss r hr]

theorem overflows_then_successes (n b : Nat) (os ss : List Response)
    (hos : ∀ r ∈ os, r.error_code = ErrorCode.ERROR_CODE_OVERFLOW)
    (hss : ∀ r ∈ ss, r.error_code = ErrorCode.ERROR_CODE_NONE)
    (hsum : n ≤ (ss.map Response.num_rx).sum) :
    (run_loop n b (os ++ ss)).1 = LoopExit.completed ∧
    (run_loop n b (os ++ ss)).2.write_index = n ∧
    (0 < n → overflow_retries (run_loop n b (os ++ ss)).2 = os.length ∧
      (run_loop n b os).1 = LoopExit.pending ∧ (run_loop n b os).2.write_index = 0) := by
  by_cases hn : 0 < n
  · obtain ⟨ho1, ho2, -, ho4⟩ :=
      receive_loop_overflows n os hos (loop_init n b [Event.stream_cmd_start]) hn
    have happ : run_loop n b (os ++ ss) = receive_loop n (run_loop n b os).2 ss := by
      unfold run_loop
      rw [receive_loop_append, if_pos ho1]
    obtain ⟨k, hk, hlog, hwi, -, hpend, hcomp, hbrk, -, -⟩ :=
      receive_loop_spec n ss (run_loop n b os).2 (by unfold run_loop; rw [ho2]; exact Nat.zero_le _)
    rw [← happ] at hlog hwi hpend hcomp hbrk
    have hw0 : (run_loop n b os).2.write_index = 0 := ho2
    have hexit : (run_loop n b (os ++ ss)).1 = LoopExit.completed := by
      cases hx : (run_loop n b (os ++ ss)).1
      · exfalso
        obtain ⟨hk', hlt⟩ := hpend hx
        rw [hwi, hk', List.take_length, success_count_all ss hss, hw0] at hlt
        omega
      · rfl
      · exfalso
        obtain ⟨-, r, hr, -, hh⟩ := hbrk hx
        have hmem : r ∈ ss := List.getElem?_mem hr
        rw [is_hard_of_none r (hss r hmem)] at hh
        cases hh
    refine ⟨hexit, hcomp hexit, fun _ => ⟨?_, ho1, hw0⟩⟩
    unfold overflow_retries
    rw [hlog]
    unfold run_loop
    rw [ho4, List.count_append, List.count_append, count_overflow_events,
      count_overflow_events]
    have e1 : os.countP (fun r => decide (r.error_code = ErrorCode.ERROR_CODE_OVERFLOW)) =
        os.length := by
      rw [List.countP_eq_length]
      intro r hr
      simp [hos r hr]
    have e2 : (ss.take k).countP
        (fun r => decide (r.error_code = ErrorCode.ERROR_CODE_OVERFLOW)) = 0 := by
      rw [List.countP_eq_zero]
      intro r hr
      simp [hss r (List.mem_of_mem_take hr)]
    rw [e1, e2]
    simp [loop_init]
  · have h0 : ¬ (loop_init n b [Event.stream_cmd_start]).write_index < n := by
      simp [loop_init]; omega
    unfold run_loop
    rw [receive_loop_done n _ _ h0]
    refine ⟨rfl, ?_, fun h => absurd h hn⟩
    simp [loop_init]; omega

/-- C2: a response classified OVERFLOW makes the loop body continue with the write cursor
unchanged; any number of OVERFLOW responses followed by successful responses whose counts
sum to at least `num_samples` ends the loop at the guard with the cursor equal to
`num_samples` (and, when `num_samples > 0`, one overflow retry per OVERFLOW response, the
loop still pending with cursor 0 after them); in particular
`[OVERFLOW, OVERFLOW, (4096, NONE), (4096, NONE)]` with `num_samples = 8192` and chunk
capacity 4096 ends with cursor 8192 after exactly two overflow retries. -/
theorem C2_overflow_retry :
    (∀ (num_samples : Nat) (s : LoopState) (r : Response),
      r.error_code = ErrorCode.ERROR_CODE_OVERFLOW →
      (loop_body num_samples s r).1 = Ctl.next ∧
      (loop_body num_samples s r).2.write_index = s.write_index ∧
      (loop_body num_samples s r).2.received_samples = s.received_samples) ∧
    (∀ (num_samples buffer_size : Nat) (overflows successes : List Response),
      (∀ r ∈ overflows, r.error_code = ErrorCode.ERROR_CODE_OVERFLOW) →
      (∀ r ∈ successes, r.error_code = ErrorCode.ERROR_CODE_NONE) →
      num_samples ≤ (successes.map Response.num_rx).sum →
      (run_loop num_samples buffer_size (overflows ++ successes)).1 = LoopExit.completed ∧
      (run_loop num_samples buffer_size (overflows ++ successes)).2.write_index = num_samples ∧
      (0 < num_samples →
        overflow_retries (run_loop num_samples buffer_size (overflows ++ successes)).2 =
          overflows.length ∧
        (run_loop num_samples buffer_size overflows).1 = LoopExit.pending ∧
        (run_loop num_samples buffer_size overflows).2.write_index = 0)) ∧
    (∀ (c1 c2 : Nat) (b1 b2 b3 b4 : List Complex32),
      (run_loop 8192 4096
        [⟨c1, ErrorCode.ERROR_CODE_OVERFLOW, b1⟩, ⟨c2, ErrorCode.ERROR_CODE_OVERFLOW, b2⟩,
         ⟨4096, ErrorCode.ERROR_CODE_NONE, b3⟩, ⟨4096, ErrorCode.ERROR_CODE_NONE, b4⟩]).1 =
        LoopExit.completed ∧
      (run_loop 8192 4096
        [⟨c1, ErrorCode.ERROR_CODE_OVERFLOW, b1⟩, ⟨c2, ErrorCode.ERROR_CODE_OVERFLOW, b2⟩,
         ⟨4096, ErrorCode.ERROR_CODE_NONE, b3⟩, ⟨4096, ErrorCode.ERROR_CODE_NONE, b4⟩]).2.write_index =
        8192 ∧
      overflow_retries (run_loop 8192 4096
        [⟨c1, ErrorCode.ERROR_CODE_OVERFLOW, b1⟩, ⟨c2, ErrorCode.ERROR_CODE_OVERFLOW, b2⟩,
         ⟨4096, ErrorCode.ERROR_CODE_NONE, b3⟩, ⟨4096, ErrorCode.ERROR_CODE_NONE, b4⟩]).2 = 2) := by
  refine ⟨?_, ?_, ?_⟩
  · intro n s r ho
    rw [loop_body_overflow n s r ho]
    exact ⟨rfl, rfl, rfl⟩
  · intro n b os ss hos hss hsum
    exact overflows_then_successes n b os ss hos hss hsum
  · intro c1 c2 b1 b2 b3 b4
    have h := overflows_then_successes 8192 4096
      [⟨c1, ErrorCode.ERROR_CODE_OVERFLOW, b1⟩, ⟨c2, ErrorCode.ERROR_CODE_OVERFLOW, b2⟩]
      [⟨4096, ErrorCode.ERROR_CODE_NONE, b3⟩, ⟨4096, ErrorCode.ERROR_CODE_NONE, b4⟩]
      (by
        intro r hr
        simp only [List.mem_cons, List.mem_singleton, List.not_mem_nil, or_false] at hr
        rcases hr with rfl | rfl <;> rfl)
      (by
        intro r hr
        simp only [List.mem_cons, List.mem_singleton, List.not_mem_nil, or_false] at hr
        rcases hr with rfl | rfl <;> rfl)
      (by simp)
    simp only [List.cons_append, List.nil_append] at h
    exact ⟨h.1, h.2.1, (h.2.2 (by norm_num)).1⟩

/-- C2 at a concrete script: capacity 4, one OVERFLOW response, then successes of 3 and
2 samples. -/
theorem C2_overflow_retry_witness :
    (run_loop 4 3 ([⟨0, ErrorCode.ERROR_CODE_OVERFLOW, []⟩] ++
      [⟨3, ErrorCode.ERROR_CODE_NONE, [⟨1, 1⟩, ⟨2, 2⟩, ⟨3, 3⟩]⟩,
       ⟨2, ErrorCode.ERROR_CODE_NONE, [⟨4, 4⟩, ⟨5, 5⟩, ⟨3, 3⟩]⟩])).2.write_index = 4 :=
  (C2_overflow_retry.2.1 4 3 [⟨0, ErrorCode.ERROR_CODE_OVERFLOW, []⟩]
      [⟨3, ErrorCode.ERROR_CODE_NONE, [⟨1, 1⟩, ⟨2, 2⟩, ⟨3, 3⟩]⟩,
       ⟨2, ErrorCode.ERROR_CODE_NONE, [⟨4, 4⟩, ⟨5, 5⟩, ⟨3, 3⟩]⟩]
      (by decide) (by decide) (by decide)).2.1


theorem success_count_append (a b : List Response) :
    success_count (a ++ b) = success_count a + success_count b := by
  simp [success_count]

theorem take_pred_snoc (rs : List Response) (k : Nat) (r : Response)
    (hk : 0 < k) (h : rs[k - 1]? = some r) : rs.take k = rs.take (k - 1) ++ [r] := by
  obtain ⟨j, rfl⟩ : ∃ j, k = j + 1 := ⟨k - 1, by omega⟩
  exact take_succ_of_get rs j r h

/-- C3: on a script on which the receive loop ends, if no consumed response is a hard
error (an error code other than NONE and OVERFLOW) the final write cursor equals
`num_samples`; if a hard error was consumed, the loop ended by `break` on it (it is the
last consumed response), and the final cursor equals the sum of the received counts of
the successful responses consumed before it and is strictly less than `num_samples`. -/
theorem C3_final_cursor (num_samples buffer_size : Nat) (responses : List Response)
    (hend : (run_loop num_samples buffer_size responses).1 ≠ LoopExit.pending) :
    ((∀ r ∈ responses.take (consumed (run_loop num_samples buffer_size responses).2),
        is_hard_error r = false) →
      (run_loop num_samples buffer_size responses).2.write_index = num_samples) ∧
    ((∃ r ∈ responses.take (consumed (run_loop num_samples buffer_size responses).2),
        is_hard_error r = true) →
      (run_loop num_samples buffer_size responses).1 = LoopExit.broke ∧
      (∃ r, responses[consumed (run_loop num_samples buffer_size responses).2 - 1]? = some r ∧
        is_hard_error r = true) ∧
      (run_loop num_samples buffer_size responses).2.write_index =
        success_count
          (responses.take (consumed (run_loop num_samples buffer_size responses).2 - 1)) ∧
      (run_loop num_samples buffer_size responses).2.write_index < num_samples) := by
  obtain ⟨-, -, hwi, -, hcomp, hbrk, hhd, -⟩ := run_loop_spec num_samples buffer_size responses
  constructor
  · intro hsoft
    cases hx : (run_loop num_samples buffer_size responses).1
    · exact absurd hx hend
    · exact hcomp hx
    · exfalso
      obtain ⟨-, r, hr, hk, hh⟩ := hbrk hx
      have hmem : r ∈ responses.take (consumed (run_loop num_samples buffer_size responses).2) := by
        rw [take_pred_snoc responses _ r hk hr]
        simp
      rw [hsoft r hmem] at hh
      cases hh
  · rintro ⟨r0, hr0, hh0⟩
    have hx := hhd r0 hr0 hh0
    obtain ⟨hlt, r, hr, hk, hh⟩ := hbrk hx
    refine ⟨hx, ⟨r, hr, hh⟩, ?_, hlt⟩
    rw [take_pred_snoc responses _ r hk hr, success_count_append] at hwi
    have e : success_count [r] = 0 := by
      simp [success_count_cons, is_success_of_hard r hh, success_count]
    rw [e] at hwi
    omega

/-- C3 at a concrete script: capacity 4, a success of 3 samples, then a TIMEOUT: the loop
breaks with cursor 3. -/
theorem C3_final_cursor_witness :
    (run_loop 4 3 [⟨3, ErrorCode.ERROR_CODE_NONE, [⟨1, 1⟩, ⟨2, 2⟩, ⟨3, 3⟩]⟩,
      ⟨0, ErrorCode.ERROR_CODE_TIMEOUT, [⟨1, 1⟩, ⟨2, 2⟩, ⟨3, 3⟩]⟩]).1 ≠ LoopExit.pending ∧
    (run_loop 4 3 [⟨3, ErrorCode.ERROR_CODE_NONE, [⟨1, 1⟩, ⟨2, 2⟩, ⟨3, 3⟩]⟩,
      ⟨0, ErrorCode.ERROR_CODE_TIMEOUT, [⟨1, 1⟩, ⟨2, 2⟩, ⟨3, 3⟩]⟩]).2.write_index < 4 :=
  ⟨by decide,
   ((C3_final_cursor 4 3 [⟨3, ErrorCode.ERROR_CODE_NONE, [⟨1, 1⟩, ⟨2, 2⟩, ⟨3, 3⟩]⟩,
      ⟨0, ErrorCode.ERROR_CODE_TIMEOUT, [⟨1, 1⟩, ⟨2, 2⟩, ⟨3, 3⟩]⟩] (by decide)).2
      ⟨⟨0, ErrorCode.ERROR_CODE_TIMEOUT, [⟨1, 1⟩, ⟨2, 2⟩, ⟨3, 3⟩]⟩, by decide, by decide⟩).2.2.2⟩

/-- C4: at every point of the receive loop, in particular when it ends, the first
`write_index` slots of `received_samples` are the first `write_index` samples of the
concatenation, in arrival order, of the delivered samples (the first `num_rx` slots of
the chunk) of the successful responses consumed; what lies below the cursor after `j`
iterations is still there after any `k ≥ j` iterations; and a response whose error code
is not NONE (OVERFLOW or hard error) changes neither the buffer nor the cursor.  The
driver never reports more samples than the chunk holds. -/
theorem C4_buffer_contents (num_samples buffer_size : Nat) (responses : List Response)
    (hwf : ∀ r ∈ responses, r.num_rx ≤ r.recv_buffer.length) :
    (run_loop num_samples buffer_size responses).2.received_samples.take
        (run_loop num_samples buffer_size responses).2.write_index =
      (success_samples
        (responses.take (consumed (run_loop num_samples buffer_size responses).2))).take
        (run_loop num_samples buffer_size responses).2.write_index ∧
    (∀ j k, j ≤ k →
      (run_loop num_samples buffer_size (responses.take k)).2.received_samples.take
          (run_loop num_samples buffer_size (responses.take j)).2.write_index =
        (run_loop num_samples buffer_size (responses.take j)).2.received_samples.take
          (run_loop num_samples buffer_size (responses.take j)).2.write_index) ∧
    (∀ (s : LoopState) (r : Response), r.error_code ≠ ErrorCode.ERROR_CODE_NONE →
      (loop_body num_samples s r).2.received_samples = s.received_samples ∧
      (loop_body num_samples s r).2.write_index = s.write_index) := by
  refine ⟨((run_loop_spec num_samples buffer_size responses).2.2.2.2.2.2.2 hwf).2, ?_, ?_⟩
  · intro j k hjk
    rcases run_loop_later num_samples buffer_size responses j k hjk with h | h
    · rw [h]
    · have hj := run_loop_spec num_samples buffer_size (responses.take j)
      have hjle : (run_loop num_samples buffer_size (responses.take j)).2.write_index ≤
          num_samples := by
        rw [hj.2.2.1]; exact Nat.min_le_left _ _
      have hjlen := (hj.2.2.2.2.2.2.2
        (fun r hr => hwf r (List.mem_of_mem_take hr))).1
      obtain ⟨_, -, -, -, hmono, -, -, -, -, hbuf⟩ :=
        receive_loop_spec num_samples ((responses.take k).drop j)
          (run_loop num_samples buffer_size (responses.take j)).2 hjle
      have hb := (hbuf
        (fun r hr => hwf r (List.mem_of_mem_take (List.mem_of_mem_drop hr))) hjlen).2
      rw [← h] at hb hmono
      have e := congrArg
        (List.take (run_loop num_samples buffer_size (responses.take j)).2.write_index) hb
      rw [List.take_take, Nat.min_eq_left hmono] at e
      rw [e, List.take_append_of_le_length (by rw [List.length_take]; omega), List.take_take,
        Nat.min_self]
  · intro s r hne
    rcases response_cases r with ho | hh | hn
    · rw [loop_body_overflow num_samples s r ho]
      exact ⟨rfl, rfl⟩
    · rw [loop_body_hard num_samples s r hh]
      exact ⟨rfl, rfl⟩
    · exact absurd hn hne

/-- C4 at a concrete script: capacity 4, chunks of 3 slots, successes of 3 and 2 samples:
the buffer holds the 3 samples of the first chunk and the first sample of the second. -/
theorem C4_buffer_contents_witness :
    (∀ r ∈ [(⟨3, ErrorCode.ERROR_CODE_NONE, [⟨1, 1⟩, ⟨2, 2⟩, ⟨3, 3⟩]⟩ : Response),
      ⟨2, ErrorCode.ERROR_CODE_NONE, [⟨4, 4⟩, ⟨5, 5⟩, ⟨3, 3⟩]⟩], r.num_rx ≤ r.recv_buffer.length) ∧
    (run_loop 4 3 [⟨3, ErrorCode.ERROR_CODE_NONE, [⟨1, 1⟩, ⟨2, 2⟩, ⟨3, 3⟩]⟩,
      ⟨2, ErrorCode.ERROR_CODE_NONE, [⟨4, 4⟩, ⟨5, 5⟩, ⟨3, 3⟩]⟩]).2.received_samples.take 4 =
      [⟨1, 1⟩, ⟨2, 2⟩, ⟨3, 3⟩, ⟨4, 4⟩] :=
  ⟨by decide,
   (C4_buffer_contents 4 3 [⟨3, ErrorCode.ERROR_CODE_NONE, [⟨1, 1⟩, ⟨2, 2⟩, ⟨3, 3⟩]⟩,
      ⟨2, ErrorCode.ERROR_CODE_NONE, [⟨4, 4⟩, ⟨5, 5⟩, ⟨3, 3⟩]⟩] (by decide)).1⟩


theorem count_stop_events (l : List Response) :
    (l.flatMap events_of).count Event.stream_cmd_stop = 0 := by
  induction l with
  | nil => simp
  | cons r rest ih =>
    rw [List.flatMap_cons, List.count_append, ih]
    rcases response_cases r with ho | hh | hn
    · simp [events_of, ho]
    · simp [is_hard_error] at hh
      simp [events_of, hh]
    · simp [events_of, hn]

theorem count_start_events (l : List Response) :
    (l.flatMap events_of).count Event.stream_cmd_start = 0 := by
  induction l with
  | nil => simp
  | cons r rest ih =>
    rw [List.flatMap_cons, List.count_append, ih]
    rcases response_cases r with ho | hh | hn
    · simp [events_of, ho]
    · simp [is_hard_error] at hh
      simp [events_of, hh]
    · simp [events_of, hn]

theorem bytes_of_events (l : List Response) :
    ((l.flatMap events_of).map (fun e => match e with
      | Event.file_write b => b
      | _ => 0)).sum = 0 := by
  induction l with
  | nil => simp
  | cons r rest ih =>
    rw [List.flatMap_cons, List.map_append, List.sum_append, ih]
    rcases response_cases r with ho | hh | hn
    · simp [events_of, ho]
    · simp [is_hard_error] at hh
      simp [events_of, hh]
    · simp [events_of, hn]

theorem main_of_ended (n b : Nat) (rs : List Response) (t : Bool)
    (h : (run_loop n b rs).1 ≠ LoopExit.pending) :
    main_from_stream_start n b rs t =
      some { exit_code := 0
             write_index := (run_loop n b rs).2.write_index
             received_samples := (run_loop n b rs).2.received_samples
             log := (run_loop n b rs).2.log ++
               [Event.stream_cmd_stop,
                Event.file_write ((run_loop n b rs).2.received_samples.length * 8)] } := by
  unfold main_from_stream_start
  rcases hx : run_loop n b rs with ⟨e, s⟩
  rw [hx] at h
  cases e
  · exact absurd rfl h
  · rfl
  · rfl

theorem main_of_throw (n b : Nat) (rs : List Response)
    (h : (run_loop n b rs).1 = LoopExit.pending) :
    main_from_stream_start n b rs true =
      some { exit_code := 1
             write_index := (run_loop n b rs).2.write_index
             received_samples := (run_loop n b rs).2.received_samples
             log := (run_loop n b rs).2.log ++ [Event.recv_call, Event.exception_caught] } := by
  unfold main_from_stream_start
  rcases hx : run_loop n b rs with ⟨e, s⟩
  rw [hx] at h
  cases h
  rfl

theorem main_of_starved (n b : Nat) (rs : List Response)
    (h : (run_loop n b rs).1 = LoopExit.pending) :
    main_from_stream_start n b rs false = none := by
  unfold main_from_stream_start
  rcases hx : run_loop n b rs with ⟨e, s⟩
  rw [hx] at h
  cases h
  rfl

theorem run_loop_nil (n b : Nat) (h : 0 < n) :
    run_loop n b [] = (LoopExit.pending, loop_init n b [Event.stream_cmd_start]) := by
  have h0 : (loop_init n b [Event.stream_cmd_start]).write_index < n := h
  simp only [run_loop, receive_loop, h0, if_true]

/-- C5 as stated fails: with the program's constants, when the first `recv` call throws,
the start command has been issued once and the stop command is never issued. -/
theorem C5_counterexample :
    (main_from_stream_start 75000 32768 [] true).map
        (fun run => (run.exit_code, run.log.count Event.stream_cmd_start,
          run.log.count Event.stream_cmd_stop)) = some (1, 1, 0) := by
  rw [main_of_throw 75000 32768 [] (by rw [run_loop_nil 75000 32768 (by norm_num)]),
    run_loop_nil 75000 32768 (by norm_num)]
  rfl

/-- C5 (amended): when the receive loop ends, at full capacity or by `break` on a hard
receive error, the workflow returns 0 and its action log is the start command, the
actions of the loop, then the stop command and the file write: the stop command is
issued exactly once, after the loop, and the start command exactly once.  When instead a
`recv` call throws, the catch handler returns 1 and no stop command is issued; while
neither happens the workflow has not returned. -/
theorem C5_stop_after_loop_exit (num_samples buffer_size : Nat) (responses : List Response)
    (next_recv_throws : Bool) :
    ((run_loop num_samples buffer_size responses).1 ≠ LoopExit.pending →
      ∃ run bytes, main_from_stream_start num_samples buffer_size responses next_recv_throws =
          some run ∧
        run.exit_code = 0 ∧
        run.log = Event.stream_cmd_start ::
          (responses.take (consumed (run_loop num_samples buffer_size responses).2)).flatMap
            events_of ++ [Event.stream_cmd_stop, Event.file_write bytes] ∧
        run.log.count Event.stream_cmd_stop = 1 ∧
        run.log.count Event.stream_cmd_start = 1) ∧
    ((run_loop num_samples buffer_size responses).1 = LoopExit.pending →
      next_recv_throws = true →
      ∃ run, main_from_stream_start num_samples buffer_size responses next_recv_throws =
          some run ∧
        run.exit_code = 1 ∧
        run.log = Event.stream_cmd_start :: responses.flatMap events_of ++
          [Event.recv_call, Event.exception_caught] ∧
        run.log.count Event.stream_cmd_stop = 0 ∧
        run.log.count Event.stream_cmd_start = 1) ∧
    ((run_loop num_samples buffer_size responses).1 = LoopExit.pending →
      next_recv_throws = false →
      main_from_stream_start num_samples buffer_size responses next_recv_throws = none) := by
  obtain ⟨-, hlog, -, hpend, -, -, -, -⟩ := run_loop_spec num_samples buffer_size responses
  refine ⟨?_, ?_, ?_⟩
  · intro h
    refine ⟨_, (run_loop num_samples buffer_size responses).2.received_samples.length * 8,
      main_of_ended num_samples buffer_size responses _ h, rfl, ?_, ?_, ?_⟩
    · simp only [hlog]
    · simp only [hlog]
      rw [List.count_append, List.count_cons, count_stop_events]
      simp
    · simp only [hlog]
      rw [List.count_append, List.count_cons, count_start_events]
      simp
  · intro h ht
    subst ht
    have hk := (hpend h).1
    rw [hk, List.take_length] at hlog
    refine ⟨_, main_of_throw num_samples buffer_size responses h, rfl, ?_, ?_, ?_⟩
    · simp only [hlog]
    · simp only [hlog]
      rw [List.count_append, List.count_cons, count_stop_events]
      simp
    · simp only [hlog]
      rw [List.count_append, List.count_cons, count_start_events]
      simp
  · intro h ht
    subst ht
    exact main_of_starved num_samples buffer_size responses h

/-- C5 (amended) at a concrete script: capacity 4, a success of 3 samples, then a
TIMEOUT: the loop breaks and the stop command is issued. -/
theorem C5_stop_after_loop_exit_witness :
    (run_loop 4 3 [⟨3, ErrorCode.ERROR_CODE_NONE, [⟨1, 1⟩, ⟨2, 2⟩, ⟨3, 3⟩]⟩,
      ⟨0, ErrorCode.ERROR_CODE_TIMEOUT, [⟨1, 1⟩, ⟨2, 2⟩, ⟨3, 3⟩]⟩]).1 ≠ LoopExit.pending ∧
    ∃ run bytes, main_from_stream_start 4 3
        [⟨3, ErrorCode.ERROR_CODE_NONE, [⟨1, 1⟩, ⟨2, 2⟩, ⟨3, 3⟩]⟩,
         ⟨0, ErrorCode.ERROR_CODE_TIMEOUT, [⟨1, 1⟩, ⟨2, 2⟩, ⟨3, 3⟩]⟩] false = some run ∧
      run.exit_code = 0 ∧
      run.log = [Event.stream_cmd_start, Event.recv_call, Event.recv_call, Event.recv_error,
        Event.stream_cmd_stop, Event.file_write bytes] ∧
      run.log.count Event.stream_cmd_stop = 1 ∧
      run.log.count Event.stream_cmd_start = 1 :=
  ⟨by decide,
   (C5_stop_after_loop_exit 4 3 [⟨3, ErrorCode.ERROR_CODE_NONE, [⟨1, 1⟩, ⟨2, 2⟩, ⟨3, 3⟩]⟩,
      ⟨0, ErrorCode.ERROR_CODE_TIMEOUT, [⟨1, 1⟩, ⟨2, 2⟩, ⟨3, 3⟩]⟩] false).1 (by decide)⟩


theorem bytes_written_ended (n b : Nat) (rs : List Response) (t : Bool)
    (h : (run_loop n b rs).1 ≠ LoopExit.pending)
    (hwf : ∀ r ∈ rs, r.num_rx ≤ r.recv_buffer.length) :
    ∃ run, main_from_stream_start n b rs t = some run ∧
      run.write_index = (run_loop n b rs).2.write_index ∧ bytes_written run = n * 8 := by
  obtain ⟨-, hlog, -, -, -, -, -, hbuf⟩ := run_loop_spec n b rs
  refine ⟨_, main_of_ended n b rs t h, rfl, ?_⟩
  simp only [bytes_written, hlog, (hbuf hwf).1]
  rw [List.map_append, List.sum_append, List.map_cons, List.sum_cons, bytes_of_events]
  simp

/-- C6 as stated fails: with the program's constants, a run that receives 1000 samples and
then a TIMEOUT ends with write cursor 1000 but hands `75000 * 8` bytes to the file. -/
theorem C6_counterexample :
    (main_from_stream_start 75000 32768
        [⟨1000, ErrorCode.ERROR_CODE_NONE, List.replicate 32768 ⟨1, 1⟩⟩,
         ⟨0, ErrorCode.ERROR_CODE_TIMEOUT, List.replicate 32768 ⟨1, 1⟩⟩] false).map
      (fun run => (run.write_index * 8, bytes_written run)) = some (8000, 600000) := by
  have hexit : (run_loop 75000 32768
      [⟨1000, ErrorCode.ERROR_CODE_NONE, List.replicate 32768 ⟨1, 1⟩⟩,
       ⟨0, ErrorCode.ERROR_CODE_TIMEOUT, List.replicate 32768 ⟨1, 1⟩⟩]).1 = LoopExit.broke := by
    decide
  have hwi : (run_loop 75000 32768
      [⟨1000, ErrorCode.ERROR_CODE_NONE, List.replicate 32768 ⟨1, 1⟩⟩,
       ⟨0, ErrorCode.ERROR_CODE_TIMEOUT, List.replicate 32768 ⟨1, 1⟩⟩]).2.write_index = 1000 := by
    decide
  obtain ⟨run, hrun, hw, hb⟩ := bytes_written_ended 75000 32768
    [⟨1000, ErrorCode.ERROR_CODE_NONE, List.replicate 32768 ⟨1, 1⟩⟩,
     ⟨0, ErrorCode.ERROR_CODE_TIMEOUT, List.replicate 32768 ⟨1, 1⟩⟩] false
    (by rw [hexit]; decide)
    (by
      intro r hr
      simp only [List.mem_cons, List.mem_singleton, List.not_mem_nil, or_false] at hr
      rcases hr with rfl | rfl <;> simp only [List.length_replicate] <;> norm_num)
  rw [hrun, Option.map_some', hw, hwi, hb]

theorem memcpy_drop (dst src : List Complex32) (pos n m : Nat)
    (h1 : pos + n ≤ dst.length) (h2 : n ≤ src.length) (h3 : pos + n ≤ m) :
    (memcpy dst pos src n).drop m = dst.drop m := by
  have hl : (dst.take pos ++ src.take n).length = pos + n := by
    simp only [List.length_append, List.length_take]
    omega
  unfold memcpy
  rw [List.drop_append_eq_append_drop, List.drop_of_length_le (by omega), hl, List.nil_append,
    List.drop_drop]
  congr 1
  omega

theorem receive_loop_tail (n : Nat) (rs : List Response) :
    ∀ s : LoopState, s.write_index ≤ n → s.received_samples.length = n →
      (∀ r ∈ rs, r.num_rx ≤ r.recv_buffer.length) →
      (receive_loop n s rs).2.received_samples.drop (receive_loop n s rs).2.write_index =
        s.received_samples.drop (receive_loop n s rs).2.write_index := by
  induction rs with
  | nil =>
    intro s _ _ _
    by_cases h : s.write_index < n <;> simp [receive_loop, h]
  | cons r rest ih =>
    intro s hs hlen hwf
    have hwf' : ∀ x ∈ rest, x.num_rx ≤ x.recv_buffer.length :=
      fun x hx => hwf x (List.mem_cons_of_mem _ hx)
    by_cases h : s.write_index < n
    · rcases response_cases r with ho | hh | hn
      · rw [receive_loop_next n s _ r rest h (loop_body_overflow n s r ho)]
        exact ih { s with recv_buffer := r.recv_buffer, log := s.log ++ events_of r }
          hs hlen hwf'
      · rw [receive_loop_brk n s _ r rest h (loop_body_hard n s r hh)]
      · have hr : r.num_rx ≤ r.recv_buffer.length := hwf r (List.mem_cons_self _ _)
        rw [receive_loop_next n s _ r rest h (loop_body_success n s r hn)]
        have hl1 : (memcpy s.received_samples s.write_index r.recv_buffer
            (min r.num_rx (n - s.write_index))).length = n := by
          rw [memcpy_length _ _ _ _ (by omega) (by omega), hlen]
        obtain ⟨_, -, -, -, hmono, -⟩ := receive_loop_spec n rest
          { write_index := s.write_index + min r.num_rx (n - s.write_index)
            received_samples := memcpy s.received_samples s.write_index r.recv_buffer
              (min r.num_rx (n - s.write_index))
            recv_buffer := r.recv_buffer
            log := s.log ++ events_of r } (by simp only; omega)
        have hi := ih
          { write_index := s.write_index + min r.num_rx (n - s.write_index)
            received_samples := memcpy s.received_samples s.write_index r.recv_buffer
              (min r.num_rx (n - s.write_index))
            recv_buffer := r.recv_buffer
            log := s.log ++ events_of r } (by simp only; omega) hl1 hwf'
        simp only at hi hmono
        rw [hi]
        exact memcpy_drop _ _ _ _ _ (by omega) (by omega) hmono
    · rw [receive_loop_done n s _ h]

theorem run_loop_tail (n b : Nat) (rs : List Response)
    (hwf : ∀ r ∈ rs, r.num_rx ≤ r.recv_buffer.length) :
    (run_loop n b rs).2.received_samples.drop (run_loop n b rs).2.write_index =
      List.replicate (n - (run_loop n b rs).2.write_index) ⟨0, 0⟩ := by
  have h := receive_loop_tail n rs (loop_init n b [Event.stream_cmd_start]) (Nat.zero_le _)
    (by simp [loop_init]) hwf
  unfold run_loop
  rw [h]
  simp only [loop_init, List.drop_replicate]

/-- C6 (amended): in every run in which the receive loop ends, at full capacity or by
`break` on a hard receive error, and the driver calls after the loop return normally,
the number of bytes written to the capture file is `num_samples * 8`, the size of the
whole buffer `received_samples`; this is `write_index * 8` when the loop ended at full
capacity, and more than `write_index * 8` when it was truncated by a hard error, where
the buffer slots from the cursor on still hold the zero samples they were initialised
with.  A run ended by a throwing `recv` call writes nothing. -/
theorem C6_file_length (num_samples buffer_size : Nat) (responses : List Response)
    (next_recv_throws : Bool)
    (hwf : ∀ r ∈ responses, r.num_rx ≤ r.recv_buffer.length) :
    ((run_loop num_samples buffer_size responses).1 ≠ LoopExit.pending →
      ∃ run, main_from_stream_start num_samples buffer_size responses next_recv_throws =
          some run ∧
        run.write_index = (run_loop num_samples buffer_size responses).2.write_index ∧
        bytes_written run = num_samples * 8 ∧
        bytes_written run = run.received_samples.length * 8 ∧
        run.received_samples.drop run.write_index =
          List.replicate (num_samples - run.write_index) ⟨0, 0⟩ ∧
        ((run_loop num_samples buffer_size responses).1 = LoopExit.completed →
          bytes_written run = run.write_index * 8) ∧
        ((run_loop num_samples buffer_size responses).1 = LoopExit.broke →
          run.write_index * 8 < bytes_written run)) ∧
    ((run_loop num_samples buffer_size responses).1 = LoopExit.pending →
      next_recv_throws = true →
      ∃ run, main_from_stream_start num_samples buffer_size responses next_recv_throws =
          some run ∧ bytes_written run = 0) := by
  obtain ⟨-, hlog, -, hpend, hcomp, hbrk, -, hbuf⟩ :=
    run_loop_spec num_samples buffer_size responses
  constructor
  · intro h
    have hrun := main_of_ended num_samples buffer_size responses next_recv_throws h
    have hb : bytes_written
        { exit_code := 0
          write_index := (run_loop num_samples buffer_size responses).2.write_index
          received_samples := (run_loop num_samples buffer_size responses).2.received_samples
          log := (run_loop num_samples buffer_size responses).2.log ++
            [Event.stream_cmd_stop,
             Event.file_write
               ((run_loop num_samples buffer_size responses).2.received_samples.length * 8)] } =
        num_samples * 8 := by
      simp only [bytes_written, hlog, (hbuf hwf).1]
      rw [List.map_append, List.sum_append, List.map_cons, List.sum_cons, bytes_of_events]
      simp
    refine ⟨_, hrun, rfl, hb, ?_, run_loop_tail num_samples buffer_size responses hwf, ?_, ?_⟩
    · rw [hb]
      simp only [(hbuf hwf).1]
    · intro hc
      rw [hb]
      simp only [hcomp hc]
    · intro hk
      have := (hbrk hk).1
      rw [hb]
      simp only
      omega
  · intro h ht
    subst ht
    refine ⟨_, main_of_throw num_samples buffer_size responses h, ?_⟩
    simp only [bytes_written, hlog]
    rw [List.map_append, List.sum_append, List.map_cons, List.sum_cons, bytes_of_events]
    simp

/-- C6 (amended) at a concrete script: capacity 4, a success of 3 samples, then a
TIMEOUT: the loop breaks with cursor 3, `4 * 8` bytes are written, and slot 3 of the
buffer still holds the zero sample. -/
theorem C6_file_length_witness :
    (∀ r ∈ [(⟨3, ErrorCode.ERROR_CODE_NONE, [⟨1, 1⟩, ⟨2, 2⟩, ⟨3, 3⟩]⟩ : Response),
      ⟨0, ErrorCode.ERROR_CODE_TIMEOUT, [⟨1, 1⟩, ⟨2, 2⟩, ⟨3, 3⟩]⟩], r.num_rx ≤ r.recv_buffer.length) ∧
    ∃ run, main_from_stream_start 4 3
        [⟨3, ErrorCode.ERROR_CODE_NONE, [⟨1, 1⟩, ⟨2, 2⟩, ⟨3, 3⟩]⟩,
         ⟨0, ErrorCode.ERROR_CODE_TIMEOUT, [⟨1, 1⟩, ⟨2, 2⟩, ⟨3, 3⟩]⟩] false = some run ∧
      run.write_index = 3 ∧ bytes_written run = 4 * 8 ∧
      run.received_samples.drop run.write_index = List.replicate (4 - run.write_index) ⟨0, 0⟩ :=
  ⟨by decide,
   match (C6_file_length 4 3 [⟨3, ErrorCode.ERROR_CODE_NONE, [⟨1, 1⟩, ⟨2, 2⟩, ⟨3, 3⟩]⟩,
      ⟨0, ErrorCode.ERROR_CODE_TIMEOUT, [⟨1, 1⟩, ⟨2, 2⟩, ⟨3, 3⟩]⟩] false (by decide)).1
      (by decide) with
   | ⟨run, h1, h2, h3, _, h5, _⟩ => ⟨run, h1, h2, h3, h5⟩⟩

end tdoa_Collection

namespace check

theorem lock_poll_spec (readings : Nat → Bool) (remaining : Nat) :
    ∀ (i : Nat) (b : Bool),
      (lock_poll readings remaining i b).2 ≤ i + remaining ∧
      (∀ j, i ≤ j → j + 1 < (lock_poll readings remaining i b).2 → readings j = false) ∧
      (0 < remaining → (lock_poll readings remaining i b).1 = true →
        i < (lock_poll readings remaining i b).2 ∧
        readings ((lock_poll readings remaining i b).2 - 1) = true) ∧
      (0 < remaining → (lock_poll readings remaining i b).1 = false →
        (lock_poll readings remaining i b).2 = i + remaining ∧
        ∀ j, i ≤ j → j < i + remaining → readings j = false) := by
  induction remaining with
  | zero =>
    intro i b
    simp [lock_poll]
    intro j h1 h2
    omega
  | succ m ih =>
    intro i b
    by_cases hr : readings i = true
    · simp only [lock_poll, hr, if_true]
      refine ⟨by omega, ?_, ?_, ?_⟩
      · intro j h1 h2
        omega
      · intro _ _
        exact ⟨Nat.lt_succ_self i, by simpa using hr⟩
      · intro _ h
        cases h
    · have hf : readings i = false := by simpa using hr
      simp only [lock_poll, hf, Bool.false_eq_true, if_false]
      obtain ⟨h1, h2, h3, h4⟩ := ih (i + 1) false
      refine ⟨by omega, ?_, ?_, ?_⟩
      · intro j hj1 hj2
        by_cases hji : j = i
        · rw [hji]; exact hf
        · exact h2 j (by omega) hj2
      · intro _ ht
        cases m with
        | zero => simp [lock_poll] at ht
        | succ m' =>
          obtain ⟨h5, h6⟩ := h3 (Nat.succ_pos _) ht
          exact ⟨by omega, h6⟩
      · intro _ hfa
        cases m with
        | zero =>
          have e : lock_poll readings 0 (i + 1) false = (false, i + 1) := rfl
          rw [e]
          refine ⟨rfl, ?_⟩
          intro j hj1 hj2
          have : j = i := by omega
          rw [this]; exact hf
        | succ m' =>
          obtain ⟨h5, h6⟩ := h4 (Nat.succ_pos _) hfa
          refine ⟨by omega, ?_⟩
          intro j hj1 hj2
          by_cases hji : j = i
          · rw [hji]; exact hf
          · exact h6 j (by omega) (by omega)

/-- C9: the clock negotiation reads the `ref_locked` sensor at most 10 times and stops at
the first reading that is true (every earlier reading is false, and when the result is
locked the last reading made is true); the final configuration has external clock and
time source with `ref_locked = true` if and only if one of the first 10 readings is true,
and when all 10 readings are false both sources are internal, `ref_locked = false`, and
all 10 reads were made.  The negotiation is a total function: it always returns a
configuration and never an error. -/
theorem C9_clock_negotiation (readings : Nat → Bool) :
    (clock_negotiation readings).sensor_reads ≤ 10 ∧
    (∀ j, j + 1 < (clock_negotiation readings).sensor_reads → readings j = false) ∧
    ((clock_negotiation readings).ref_locked = true →
      0 < (clock_negotiation readings).sensor_reads ∧
      readings ((clock_negotiation readings).sensor_reads - 1) = true) ∧
    (((clock_negotiation readings).clock_source = "external" ∧
      (clock_negotiation readings).time_source = "external" ∧
      (clock_negotiation readings).ref_locked = true) ↔ ∃ j, j < 10 ∧ readings j = true) ∧
    ((∀ j, j < 10 → readings j = false) →
      (clock_negotiation readings).clock_source = "internal" ∧
      (clock_negotiation readings).time_source = "internal" ∧
      (clock_negotiation readings).ref_locked = false ∧
      (clock_negotiation readings).sensor_reads = 10) := by
  obtain ⟨h1, h2, h3, h4⟩ := lock_poll_spec readings 10 0 false
  have hreads : (clock_negotiation readings).sensor_reads = (lock_poll readings 10 0 false).2 := by
    unfold clock_negotiation
    dsimp only
    cases (lock_poll readings 10 0 false).1 <;> rfl
  have hlocked : (clock_negotiation readings).ref_locked = (lock_poll readings 10 0 false).1 := by
    unfold clock_negotiation
    dsimp only
    cases (lock_poll readings 10 0 false).1 <;> rfl
  have hsrc : (clock_negotiation readings).clock_source =
        (if (lock_poll readings 10 0 false).1 = true then "external" else "internal") ∧
      (clock_negotiation readings).time_source =
        (if (lock_poll readings 10 0 false).1 = true then "external" else "internal") := by
    unfold clock_negotiation
    dsimp only
    cases (lock_poll readings 10 0 false).1 <;> exact ⟨rfl, rfl⟩
  rw [hreads, hlocked, hsrc.1, hsrc.2]
  have hiff : (lock_poll readings 10 0 false).1 = true ↔ ∃ j, j < 10 ∧ readings j = true := by
    constructor
    · intro ht
      obtain ⟨h5, h6⟩ := h3 (by decide) ht
      exact ⟨(lock_poll readings 10 0 false).2 - 1, by omega, h6⟩
    · rintro ⟨j, hj, hjt⟩
      by_contra hne
      have hfa : (lock_poll readings 10 0 false).1 = false := by simpa using hne
      have := (h4 (by decide) hfa).2 j (Nat.zero_le _) (by omega)
      rw [this] at hjt
      cases hjt
  refine ⟨by omega, fun j hj => h2 j (Nat.zero_le _) hj, ?_, ?_, ?_⟩
  · intro ht
    exact h3 (by decide) ht
  · rw [← hiff]
    constructor
    · intro h
      exact h.2.2
    · intro h
      simp [h]
  · intro hall
    have hfa : (lock_poll readings 10 0 false).1 = false := by
      cases hx : (lock_poll readings 10 0 false).1
      · rfl
      · obtain ⟨j, hj, hjt⟩ := hiff.mp hx
        rw [hall j hj] at hjt
        cases hjt
    have := (h4 (by decide) hfa).1
    simp [hfa]
    omega

/-- C9 at a concrete reading sequence: locked at the third read. -/
theorem C9_clock_negotiation_witness :
    clock_negotiation (fun k => decide (2 ≤ k)) =
      { clock_source := "external", time_source := "external", ref_locked := true,
        sensor_reads := 3 } ∧
    (∀ j, j + 1 < 3 → (fun k => decide (2 ≤ k)) j = false) :=
  ⟨by decide, (C9_clock_negotiation (fun k => decide (2 ≤ k))).2.1⟩

end check

namespace tdoa_Collection

theorem wait_pps_edge_iff (last_pps : ℚ) (polls : List ℚ) (v : ℚ) (rest : List ℚ) :
    wait_pps_edge last_pps polls = some (v, rest) ↔
      ∃ pre, polls = pre ++ v :: rest ∧ last_pps < v ∧ ∀ x ∈ pre, x ≤ last_pps := by
  induction polls with
  | nil => simp [wait_pps_edge]
  | cons p ps ih =>
    by_cases hp : p > last_pps
    · simp only [wait_pps_edge, hp, if_true, Option.some.injEq, Prod.mk.injEq]
      constructor
      · rintro ⟨rfl, rfl⟩
        exact ⟨[], rfl, hp, by simp⟩
      · rintro ⟨pre, hpre, hv, hall⟩
        cases pre with
        | nil =>
          simp only [List.nil_append, List.cons.injEq] at hpre
          exact hpre
        | cons q qs =>
          simp only [List.cons_append, List.cons.injEq] at hpre
          have := hall q (List.mem_cons_self _ _)
          rw [← hpre.1] at this
          exact absurd hp (not_lt.mpr this)
    · simp only [wait_pps_edge, hp, if_false]
      rw [ih]
      constructor
      · rintro ⟨pre, rfl, hv, hall⟩
        refine ⟨p :: pre, rfl, hv, ?_⟩
        intro x hx
        rcases List.mem_cons.mp hx with rfl | hx
        · exact not_lt.mp hp
        · exact hall x hx
      · rintro ⟨pre, hpre, hv, hall⟩
        cases pre with
        | nil =>
          simp only [List.nil_append, List.cons.injEq] at hpre
          rw [hpre.1] at hp
          exact absurd hv hp
        | cons q qs =>
          simp only [List.cons_append, List.cons.injEq] at hpre
          exact ⟨qs, hpre.2, hv, fun x hx => hall x (List.mem_cons_of_mem _ hx)⟩

theorem wait_pps_edge_skip (last_pps : ℚ) (pre rest : List ℚ)
    (h : ∀ x ∈ pre, x ≤ last_pps) :
    wait_pps_edge last_pps (pre ++ rest) = wait_pps_edge last_pps rest := by
  induction pre with
  | nil => rfl
  | cons p ps ih =>
    have hp : ¬ p > last_pps := not_lt.mpr (h p (List.mem_cons_self _ _))
    simp only [List.cons_append, wait_pps_edge, hp, if_false]
    exact ih (fun x hx => h x (List.mem_cons_of_mem _ hx))

end tdoa_Collection

namespace check

theorem wait_edge_iff (prev : ℚ) (polls : List ℚ) (curr : ℚ) (rest : List ℚ) :
    wait_edge prev polls = some (curr, rest) ↔
      ∃ k, polls = List.replicate k prev ++ curr :: rest ∧ curr ≠ prev := by
  induction polls with
  | nil => simp [wait_edge]
  | cons p ps ih =>
    by_cases hp : p ≠ prev
    · rw [wait_edge, if_pos hp]
      simp only [Option.some.injEq, Prod.mk.injEq]
      constructor
      · rintro ⟨rfl, rfl⟩
        exact ⟨0, rfl, hp⟩
      · rintro ⟨k, hk, hc⟩
        cases k with
        | zero =>
          simp only [List.replicate_zero, List.nil_append, List.cons.injEq] at hk
          exact hk
        | succ k =>
          simp only [List.replicate_succ, List.cons_append, List.cons.injEq] at hk
          exact absurd hk.1 hp
    · rw [wait_edge, if_neg hp, ih]
      have hp' : p = prev := not_not.mp hp
      constructor
      · rintro ⟨k, rfl, hc⟩
        exact ⟨k + 1, by simp [List.replicate_succ, hp'], hc⟩
      · rintro ⟨k, hk, hc⟩
        cases k with
        | zero =>
          simp only [List.replicate_zero, List.nil_append, List.cons.injEq] at hk
          rw [hk.1] at hp'
          exact absurd hp' hc
        | succ k =>
          simp only [List.replicate_succ, List.cons_append, List.cons.injEq] at hk
          exact ⟨k, hk.2, hc⟩

/-- C10 as stated fails.  In the jitter sampler a poll smaller than the previous value
ends the wait: after the value 5, the poll 3 is reported as an edge.  In the capture
workflow a poll strictly greater than the previous poll need not end the wait: with 5
read before the wait, the polls 3 and then 4 leave it waiting. -/
theorem C10_counterexample :
    wait_edge 5 [3] = some (3, []) ∧ tdoa_Collection.wait_pps_edge 5 [3, 4] = none := by
  constructor
  · simp [wait_edge]
  · simp [tdoa_Collection.wait_pps_edge]
    norm_num

/-- C10 (amended): each PPS edge wait of the capture workflow ends on a poll if and only
if the polled value is strictly greater than `last_pps`, the value read just before the
wait, and every earlier poll of the wait was at most `last_pps`; a poll that repeats the
previous poll (or, for the first poll, `last_pps`) or is smaller than it never ends such
a wait.  The wait of the jitter sampler ends on a poll if and only if the polled value
differs from `prev`, which is then the value of every earlier poll of the wait: a
repeated value never ends it, a strictly greater value ends it, and so does a smaller
one. -/
theorem C10_edge_detection :
    (∀ (last_pps : ℚ) (polls : List ℚ) (v : ℚ) (rest : List ℚ),
      tdoa_Collection.wait_pps_edge last_pps polls = some (v, rest) ↔
        ∃ pre, polls = pre ++ v :: rest ∧ last_pps < v ∧ ∀ x ∈ pre, x ≤ last_pps) ∧
    (∀ (last_pps : ℚ) (pre : List ℚ) (v : ℚ) (rest : List ℚ),
      (∀ x ∈ pre, x ≤ last_pps) → v ≤ (pre.getLast?).getD last_pps →
      tdoa_Collection.wait_pps_edge last_pps (pre ++ v :: rest) =
        tdoa_Collection.wait_pps_edge last_pps rest) ∧
    (∀ (prev : ℚ) (polls : List ℚ) (curr : ℚ) (rest : List ℚ),
      wait_edge prev polls = some (curr, rest) ↔
        ∃ k, polls = List.replicate k prev ++ curr :: rest ∧ curr ≠ prev) ∧
    (∀ (prev : ℚ) (rest : List ℚ), wait_edge prev (prev :: rest) = wait_edge prev rest) ∧
    (∀ (prev curr : ℚ) (rest : List ℚ), curr < prev ∨ prev < curr →
      wait_edge prev (curr :: rest) = some (curr, rest)) := by
  refine ⟨tdoa_Collection.wait_pps_edge_iff, ?_, wait_edge_iff, ?_, ?_⟩
  · intro last_pps pre v rest hpre hv
    have hle : v ≤ last_pps := by
      cases hl : pre.getLast? with
      | none =>
        rw [hl] at hv
        exact hv
      | some p =>
        rw [hl] at hv
        exact le_trans hv (hpre p (List.mem_of_getLast?_eq_some hl))
    have : pre ++ v :: rest = (pre ++ [v]) ++ rest := by simp
    rw [this]
    apply tdoa_Collection.wait_pps_edge_skip
    intro x hx
    rcases List.mem_append.mp hx with hx | hx
    · exact hpre x hx
    · rw [List.mem_singleton.mp hx]
      exact hle
  · intro prev rest
    simp [wait_edge]
  · intro prev curr rest h
    have hne : curr ≠ prev := by
      rcases h with h | h
      · exact ne_of_lt h
      · exact ne_of_gt h
    simp [wait_edge, hne]

/-- C10 (amended) at concrete polls: in the capture wait after reading 5, the polls 5 and
4 do not end the wait and 6 does; in the jitter wait after 5, the smaller poll 3 ends
it. -/
theorem C10_edge_detection_witness :
    tdoa_Collection.wait_pps_edge 5 ([5] ++ 4 :: [6]) = tdoa_Collection.wait_pps_edge 5 [6] ∧
    wait_edge 5 (3 :: []) = some (3, []) :=
  ⟨C10_edge_detection.2.1 5 [5] 4 [6] (by simp) (by norm_num),
   C10_edge_detection.2.2.2.2 5 3 [] (Or.inl (by norm_num))⟩


theorem wait_edge_replicate (prev curr : ℚ) (k : Nat) (rest : List ℚ) (h : curr ≠ prev) :
    wait_edge prev (List.replicate k prev ++ curr :: rest) = some (curr, rest) :=
  (wait_edge_iff prev _ curr rest).mpr ⟨k, rfl, h⟩

/-- C7 as stated fails: with initial read 0 and edges at 1.0000001 and 2.0000003 the
second deviation, taken against the preceding edge, is 200 ns and not 300 ns; the average
is 150 ns and the peak-to-peak 100 ns. -/
theorem C7_counterexample :
    jitter_sampler 2 0 [10000001 / 10000000, 20000003 / 10000000] =
      some ([100, 200],
        { average := 150, peak_to_peak := 100, max_advance := 100, max_delay := 200 }) := by
  simp [jitter_sampler, jitter_loop, wait_edge, summary, accumulate, minmax_element]
  norm_num

/-- C7 (amended): with exact arithmetic and a sample count of 2, when the initial PPS
read is 0 and the next two detected edge times are 1.0000001 and 2.0000003 (each possibly
preceded by polls that repeat the previous value), the two recorded deviations, each
computed as `(curr - prev - 1) * 1e9` against the preceding edge, are 100 ns and 200 ns,
the summary average is 150 ns and the summary peak-to-peak is 100 ns. -/
theorem C7_scenario_A (a b : Nat) (rest : List ℚ) :
    jitter_sampler 2 0
        (List.replicate a 0 ++ (10000001 / 10000000) ::
          (List.replicate b (10000001 / 10000000) ++ (20000003 / 10000000) :: rest)) =
      some ([100, 200],
        { average := 150, peak_to_peak := 100, max_advance := 100, max_delay := 200 }) := by
  have h1 : wait_edge 0 (List.replicate a 0 ++ (10000001 / 10000000) ::
      (List.replicate b (10000001 / 10000000) ++ (20000003 / 10000000) :: rest)) =
      some (10000001 / 10000000,
        List.replicate b (10000001 / 10000000) ++ (20000003 / 10000000) :: rest) :=
    wait_edge_replicate 0 _ a _ (by norm_num)
  have h2 : wait_edge (10000001 / 10000000)
      (List.replicate b (10000001 / 10000000) ++ (20000003 / 10000000) :: rest) =
      some (20000003 / 10000000, rest) :=
    wait_edge_replicate _ _ b rest (by norm_num)
  simp only [jitter_sampler, jitter_loop, h1, h2]
  simp [summary, accumulate, minmax_element]
  norm_num

theorem minmax_fold (xs : List ℚ) :
    ∀ acc : ℚ × ℚ,
      ((xs.foldl (fun acc y =>
          (if y < acc.1 then y else acc.1, if y < acc.2 then acc.2 else y)) acc).1 ∈ acc.1 :: xs ∧
        ∀ x ∈ acc.1 :: xs, (xs.foldl (fun acc y =>
          (if y < acc.1 then y else acc.1, if y < acc.2 then acc.2 else y)) acc).1 ≤ x) ∧
      ((xs.foldl (fun acc y =>
          (if y < acc.1 then y else acc.1, if y < acc.2 then acc.2 else y)) acc).2 ∈ acc.2 :: xs ∧
        ∀ x ∈ acc.2 :: xs, x ≤ (xs.foldl (fun acc y =>
          (if y < acc.1 then y else acc.1, if y < acc.2 then acc.2 else y)) acc).2) := by
  induction xs with
  | nil =>
    intro acc
    simp
  | cons y ys ih =>
    intro acc
    rw [List.foldl_cons]
    obtain ⟨⟨h1, h2⟩, ⟨h3, h4⟩⟩ :=
      ih (if y < acc.1 then y else acc.1, if y < acc.2 then acc.2 else y)
    simp only at h1 h2 h3 h4
    refine ⟨⟨?_, ?_⟩, ⟨?_, ?_⟩⟩
    · rcases List.mem_cons.mp h1 with h | h
      · rw [h]
        by_cases hy : y < acc.1
        · simp [hy]
        · simp [hy]
      · exact List.mem_cons_of_mem _ (List.mem_cons_of_mem _ h)
    · intro x hx
      have hm := h2 _ (List.mem_cons_self _ _)
      rcases List.mem_cons.mp hx with hxa | hx
      · refine le_trans hm ?_
        rw [hxa]
        by_cases hy : y < acc.1
        · rw [if_pos hy]; exact le_of_lt hy
        · rw [if_neg hy]
      · rcases List.mem_cons.mp hx with hxy | hx
        · refine le_trans hm ?_
          rw [hxy]
          by_cases hy : y < acc.1
          · rw [if_pos hy]
          · rw [if_neg hy]; exact not_lt.mp hy
        · exact h2 x (List.mem_cons_of_mem _ hx)
    · rcases List.mem_cons.mp h3 with h | h
      · rw [h]
        by_cases hy : y < acc.2
        · simp [hy]
        · simp [hy]
      · exact List.mem_cons_of_mem _ (List.mem_cons_of_mem _ h)
    · intro x hx
      have hm := h4 _ (List.mem_cons_self _ _)
      rcases List.mem_cons.mp hx with hxa | hx
      · refine le_trans ?_ hm
        rw [hxa]
        by_cases hy : y < acc.2
        · rw [if_pos hy]
        · rw [if_neg hy]; exact not_lt.mp hy
      · rcases List.mem_cons.mp hx with hxy | hx
        · refine le_trans ?_ hm
          rw [hxy]
          by_cases hy : y < acc.2
          · rw [if_pos hy]; exact le_of_lt hy
          · rw [if_neg hy]
        · exact h4 x (List.mem_cons_of_mem _ hx)

theorem accumulate_eq_sum (xs : List ℚ) (init : ℚ) : accumulate xs init = init + xs.sum := by
  unfold accumulate
  induction xs generalizing init with
  | nil => simp
  | cons y ys ih =>
    rw [List.foldl_cons, ih, List.sum_cons]
    ring

/-- C8: for every non-empty vector of `N` recorded deviations the summary is produced and
reports average = (sum of the deviations) / N, max advance = the minimum of the
deviations (an element below all others), max delay = their maximum (an element above
all others) and peak-to-peak = maximum − minimum; consequently
max advance ≤ average ≤ max delay and peak-to-peak ≥ 0. -/
theorem C8_summary (N : Nat) (deviations : List ℚ)
    (hlen : deviations.length = N) (hpos : 0 < N) :
    ∃ s, summary N deviations = some s ∧
      s.average = deviations.sum / (N : ℚ) ∧
      (s.max_advance ∈ deviations ∧ ∀ x ∈ deviations, s.max_advance ≤ x) ∧
      (s.max_delay ∈ deviations ∧ ∀ x ∈ deviations, x ≤ s.max_delay) ∧
      s.peak_to_peak = s.max_delay - s.max_advance ∧
      s.max_advance ≤ s.average ∧ s.average ≤ s.max_delay ∧ 0 ≤ s.peak_to_peak := by
  cases deviations with
  | nil =>
    simp at hlen
    omega
  | cons d ds =>
    obtain ⟨⟨h1, h2⟩, ⟨h3, h4⟩⟩ := minmax_fold ds (d, d)
    simp only at h1 h2 h3 h4
    have hN : (0 : ℚ) < (N : ℚ) := by exact_mod_cast hpos
    have hlo := List.card_nsmul_le_sum (d :: ds) _ h2
    have hhi := List.sum_le_card_nsmul (d :: ds) _ h4
    rw [hlen, nsmul_eq_mul] at hlo hhi
    have hs : summary N (d :: ds) = some
        { average := accumulate (d :: ds) 0 / (N : ℚ)
          peak_to_peak :=
            (ds.foldl (fun acc y =>
              (if y < acc.1 then y else acc.1, if y < acc.2 then acc.2 else y)) (d, d)).2 -
            (ds.foldl (fun acc y =>
              (if y < acc.1 then y else acc.1, if y < acc.2 then acc.2 else y)) (d, d)).1
          max_advance :=
            (ds.foldl (fun acc y =>
              (if y < acc.1 then y else acc.1, if y < acc.2 then acc.2 else y)) (d, d)).1
          max_delay :=
            (ds.foldl (fun acc y =>
              (if y < acc.1 then y else acc.1, if y < acc.2 then acc.2 else y)) (d, d)).2 } := rfl
    refine ⟨_, hs, ?_, ⟨h1, h2⟩, ⟨h3, h4⟩, rfl, ?_, ?_, ?_⟩
    · simp only [accumulate_eq_sum, zero_add]
    · simp only [accumulate_eq_sum, zero_add]
      rw [le_div_iff₀ hN, mul_comm]
      exact hlo
    · simp only [accumulate_eq_sum, zero_add]
      rw [div_le_iff₀ hN, mul_comm]
      exact hhi
    · simp only [sub_nonneg]
      exact le_trans (h2 d (List.mem_cons_self _ _)) (h4 d (List.mem_cons_self _ _))

/-- C8 at a concrete vector: deviations 100, -50, 250. -/
theorem C8_summary_witness :
    ([100, -50, 250] : List ℚ).length = 3 ∧ 0 < 3 ∧
    ∃ s, summary 3 [100, -50, 250] = some s ∧
      s.average = ([100, -50, 250] : List ℚ).sum / ((3 : Nat) : ℚ) ∧
      (s.max_advance ∈ ([100, -50, 250] : List ℚ) ∧
        ∀ x ∈ ([100, -50, 250] : List ℚ), s.max_advance ≤ x) ∧
      (s.max_delay ∈ ([100, -50, 250] : List ℚ) ∧
        ∀ x ∈ ([100, -50, 250] : List ℚ), x ≤ s.max_delay) ∧
      s.peak_to_peak = s.max_delay - s.max_advance ∧
      s.max_advance ≤ s.average ∧ s.average ≤ s.max_delay ∧ 0 ≤ s.peak_to_peak :=
  ⟨rfl, by decide, C8_summary 3 [100, -50, 250] rfl (by decide)⟩

end check
